import Mathlib

/-!
Verification development for the pubmed-affiliation-filter repository.

The repository has two core parts: a keyword-based affiliation classifier
(`filters.py`) and a rate-limited PubMed client with record extraction
(`api.py`).  Python strings are modelled as Lean `String`s (with `\w` of the
email regex modelled as ASCII word characters), the dynamically-typed values
coming out of `Entrez.read` are modelled by the inductive `PValue`, raisable
Python code is modelled in `Except PyErr`, and wall-clock time for the rate
limiter is modelled by rationals.
-/

namespace PubMedAF

/-! ### Strings: Python `in` (substring) and `str.upper` / `str.lower` -/

/-- Python's substring test `needle in hay`, over explicit character lists. -/
def containsSub (hay needle : List Char) : Bool :=
  needle.isPrefixOf hay ||
    match hay with
    | [] => false
    | _ :: t => containsSub t needle

/-- The characters of `s.upper()`. -/
def upperData (s : String) : List Char := s.data.map Char.toUpper

/-- Python `s.lower()`. -/
def lowerStr (s : String) : String := ⟨s.data.map Char.toLower⟩

/-! ### filters.py : `is_company_affiliated` -/

/-- The `company_keywords` list of `filters.py`, verbatim. -/
def company_keywords : List String :=
  ["Inc", "Ltd", "LLC", "Corporation", "Corp", "GmbH",
   "Pharma", "Biotech", "Therapeutics", "Company", "Co",
   "Pharmaceuticals", "Biotechnology", "Biosciences",
   "Labs", "Laboratories", "Technologies"]

/-- The `non_company_keywords` list of `filters.py`, verbatim. -/
def non_company_keywords : List String :=
  ["University", "Institute", "College", "School",
   "Hospital", "Medical Center", "Clinic", "Foundation",
   "Research Center", "Academy", "Department of",
   "Ministry of", "National", "Federal"]

/-- `∃ k ∈ ks, k.upper() in u` — one keyword-scanning loop of
`is_company_affiliated` (a loop that returns on the first hit is `List.any`). -/
def anyKeywordIn (ks : List String) (u : List Char) : Bool :=
  ks.any fun k => containsSub u (upperData k)

/-- Some non-company keyword occurs case-insensitively in `affiliation`. -/
def hasNonCompanyKeyword (affiliation : String) : Bool :=
  anyKeywordIn non_company_keywords (upperData affiliation)

/-- Some company keyword occurs case-insensitively in `affiliation`. -/
def hasCompanyKeyword (affiliation : String) : Bool :=
  anyKeywordIn company_keywords (upperData affiliation)

/-- `filters.is_company_affiliated`: uppercase the affiliation, return `false`
on any non-company keyword hit, otherwise `true` exactly on a company keyword
hit. -/
def is_company_affiliated (affiliation : String) : Bool :=
  if hasNonCompanyKeyword affiliation then false
  else hasCompanyKeyword affiliation

/-! ### A model of the dynamically-typed values produced by `Entrez.read`

Values are strings, lists, or string-keyed dicts (modelled as association
lists, lookup taking the first binding).  Operations that can raise in Python
return `Except PyErr`. -/

/-- A Python value as it appears in a parsed PubMed record. -/
inductive PValue where
  | str : String → PValue
  | list : List PValue → PValue
  | dict : List (String × PValue) → PValue

/-- The Python exception kinds the extractors can raise. -/
inductive PyErr where
  | keyError
  | indexError
  | typeError
  | attributeError
  | valueError
deriving DecidableEq

/-- Python `v[k]` for a string key `k`: dict lookup (KeyError when the key is
missing); indexing a str or list with a string key raises TypeError. -/
def PValue.getItem : PValue → String → Except PyErr PValue
  | .dict fs, k =>
      match fs.lookup k with
      | some v => .ok v
      | none => .error .keyError
  | _, _ => .error .typeError

/-- Python `v[i]` for a non-negative integer index `i`: list indexing
(IndexError out of range), string indexing (yields a one-character string),
and dict indexing with an integer key (KeyError: no such key here, where all
dict keys are strings). -/
def PValue.getIndex : PValue → Nat → Except PyErr PValue
  | .list xs, i =>
      match xs.get? i with
      | some v => .ok v
      | none => .error .indexError
  | .str s, i =>
      match s.data.get? i with
      | some c => .ok (.str (String.singleton c))
      | none => .error .indexError
  | .dict _, _ => .error .keyError

/-- Python `v.get(k, default)`: only dicts have `.get`, so any other receiver
raises AttributeError. -/
def PValue.getDefault : PValue → String → PValue → Except PyErr PValue
  | .dict fs, k, d => .ok ((fs.lookup k).getD d)
  | _, _, _ => .error .attributeError

/-- Python truthiness of our values: non-empty str/list/dict. -/
def PValue.truthy : PValue → Bool
  | .str s => !s.isEmpty
  | .list xs => !xs.isEmpty
  | .dict fs => !fs.isEmpty

/-- Python `for x in v`: lists iterate elements, strings iterate their
characters (as one-character strings), dicts iterate their keys. -/
def PValue.iterate : PValue → List PValue
  | .list xs => xs
  | .str s => s.data.map fun c => .str (String.singleton c)
  | .dict fs => fs.map fun p => .str p.1

/-- Python `needle in v` for a string needle: key test on dicts, substring
test on strings, membership test on lists. -/
def PValue.hasMember (hay : PValue) (needle : String) : Bool :=
  match hay with
  | .dict fs => fs.any fun p => needle == p.1
  | .str s => containsSub s.data needle.data
  | .list xs =>
      xs.any fun v =>
        match v with
        | .str t => needle == t
        | _ => false

/-- An ASCII single-quote character, used by `pyRepr`. -/
def sq : String := String.singleton (Char.ofNat 39)

mutual

/-- Python `repr` of a value (used by `str`/f-strings on containers). -/
def pyRepr : PValue → String
  | .str s => sq ++ s ++ sq
  | .list xs => "[" ++ String.intercalate ", " (pyReprList xs) ++ "]"
  | .dict fs => "\x7b" ++ String.intercalate ", " (pyReprPairs fs) ++ "\x7d"

/-- `repr` of each element of a list of values. -/
def pyReprList : List PValue → List String
  | [] => []
  | v :: vs => pyRepr v :: pyReprList vs

/-- `repr` of each `key: value` binding of a dict. -/
def pyReprPairs : List (String × PValue) → List String
  | [] => []
  | (k, v) :: fs => (sq ++ k ++ sq ++ ": " ++ pyRepr v) :: pyReprPairs fs

end

/-- Python `str(v)`, as used by f-string interpolation: identity on strings,
`repr`-based rendering on containers. -/
def pyStr : PValue → String
  | .str s => s
  | .list xs => pyRepr (.list xs)
  | .dict fs => pyRepr (.dict fs)

/-! ### The email regex `[\w\.-]+@[\w\.-]+\.\w+` of `_extract_corresponding_email`

`\w` is modelled as ASCII word characters.  The pattern has the rigid shape
`A+ @ B+ . C+` with `A = B = [\w.-]` and `C = \w`, so a Python `re.search` is:
scan start positions left to right; at a start, the `A+` run is forced to be
the maximal `[\w.-]` run (its class excludes `@`); after `@`, the engine takes
the maximal `[\w.-]` run and backtracks `B+` from the longest length `k` down
until position `k` holds `'.'` followed by a word character; `\w+` then takes
the maximal word run. -/

/-- ASCII `\w`: letters, digits, underscore. -/
def isWordChar (c : Char) : Bool := c.isAlphanum || c == '_'

/-- The character class `[\w.-]`. -/
def isEmailChar (c : Char) : Bool := isWordChar c || c == '.' || c == '-'

/-- Backtracking search for the longest `B+` prefix of the domain run `d`:
the largest `k ≥ 1` with `d[k] = '.'` and `d[k+1]` a word character.
`domSplitAux d j` tries candidates `j, j-1, …, 1`. -/
def domSplitAux (d : List Char) : Nat → Option Nat
  | 0 => none
  | j + 1 =>
      if (d.get? (j + 1) == some '.') && (d.get? (j + 2)).any isWordChar then
        some (j + 1)
      else
        domSplitAux d j

/-- The `B+` length chosen by the engine on domain run `d`, if any. -/
def domSplit (d : List Char) : Option Nat := domSplitAux d d.length

/-- Anchored match of the email pattern at the start of `cs`; returns the
matched text (`group(0)`). -/
def matchAt (cs : List Char) : Option String :=
  let a := cs.takeWhile isEmailChar
  if a.isEmpty then none
  else
    match cs.drop a.length with
    | '@' :: afterAt =>
        let d := afterAt.takeWhile isEmailChar
        match domSplit d with
        | some k =>
            let w := (d.drop (k + 1)).takeWhile isWordChar
            some ⟨a ++ '@' :: (d.take k ++ '.' :: w)⟩
        | none => none
    | _ => none

/-- Leftmost match: try each start position in order. -/
def emailSearchAux : List Char → Option String
  | [] => none
  | c :: rest =>
      match matchAt (c :: rest) with
      | some m => some m
      | none => emailSearchAux rest

/-- Python `re.search(r'[\w\.-]+@[\w\.-]+\.\w+', s)`, returning `group(0)`. -/
def emailSearch (s : String) : Option String := emailSearchAux s.data

/-! ### api.py : the extraction helpers of `PubMedAPI` -/

/-- `_extract_publication_date`: prefer `article.get("ArticleDate", [{}])[0]`
when truthy (hyphen-joined `Year-Month-Day` via f-string), otherwise
`article["Journal"]["JournalIssue"]["PubDate"].get("Year", "")`; a KeyError or
IndexError anywhere is caught and yields the empty string. -/
def extract_publication_date (article : PValue) : Except PyErr PValue :=
  let body : Except PyErr PValue :=
    match article.getDefault "ArticleDate" (.list [.dict []]) with
    | .error e => .error e
    | .ok adList =>
        match adList.getIndex 0 with
        | .error e => .error e
        | .ok pub_date =>
            if pub_date.truthy then
              match pub_date.getDefault "Year" (.str "") with
              | .error e => .error e
              | .ok y =>
                  match pub_date.getDefault "Month" (.str "") with
                  | .error e => .error e
                  | .ok m =>
                      match pub_date.getDefault "Day" (.str "") with
                      | .error e => .error e
                      | .ok d =>
                          .ok (.str (pyStr y ++ "-" ++ pyStr m ++ "-" ++ pyStr d))
            else
              match article.getItem "Journal" with
              | .error e => .error e
              | .ok j =>
                  match j.getItem "JournalIssue" with
                  | .error e => .error e
                  | .ok ji =>
                      match ji.getItem "PubDate" with
                      | .error e => .error e
                      | .ok pd => pd.getDefault "Year" (.str "")
  match body with
  | .error .keyError => .ok (.str "")
  | .error .indexError => .ok (.str "")
  | other => other

/-- One row of the per-author summary built by `_extract_authors`. -/
structure AuthorData where
  last_name : PValue
  first_name : PValue
  affiliation : PValue

/-- The body of the `for author in article["AuthorList"]` loop of
`_extract_authors`: the three `.get` fields in evaluation order, the
affiliation being `author.get("AffiliationInfo", [{}])[0].get("Affiliation", "")`. -/
def extractAuthorData (author : PValue) : Except PyErr AuthorData :=
  match author.getDefault "LastName" (.str "") with
  | .error e => .error e
  | .ok ln =>
      match author.getDefault "ForeName" (.str "") with
      | .error e => .error e
      | .ok fn =>
          match author.getDefault "AffiliationInfo" (.list [.dict []]) with
          | .error e => .error e
          | .ok ai =>
              match ai.getIndex 0 with
              | .error e => .error e
              | .ok first =>
                  match first.getDefault "Affiliation" (.str "") with
                  | .error e => .error e
                  | .ok aff => .ok ⟨ln, fn, aff⟩

/-- The author loop of `_extract_authors`.  The surrounding `except KeyError:
pass` returns the authors accumulated so far, so a KeyError while processing
an author ends the loop keeping the earlier rows; any other exception
propagates. -/
def authorsLoop : List PValue → Except PyErr (List AuthorData)
  | [] => .ok []
  | a :: rest =>
      match extractAuthorData a with
      | .ok d =>
          match authorsLoop rest with
          | .ok ds => .ok (d :: ds)
          | .error e => .error e
      | .error .keyError => .ok []
      | .error e => .error e

/-- `_extract_authors`: iterate `article["AuthorList"]` building per-author
rows, `except KeyError: pass`, return the rows collected. -/
def extract_authors (article : PValue) : Except PyErr (List AuthorData) :=
  match article.getItem "AuthorList" with
  | .ok al => authorsLoop al.iterate
  | .error .keyError => .ok []
  | .error e => .error e

/-- `set.add` on the affiliation set: Python sets keep one copy of each
string; the model keeps first-occurrence order. -/
def insertAff (l : List String) (s : String) : List String :=
  if l.contains s then l else l ++ [s]

/-- The `for aff in author.get("AffiliationInfo", [])` loop of
`_extract_affiliations`: entries whose membership test `"Affiliation" in aff`
succeeds contribute `aff["Affiliation"]` to the set; adding an unhashable
(non-string) value raises TypeError, indexing a string entry with a string key
also raises TypeError. -/
def entriesAffLoop (acc : List String) : List PValue → Except PyErr (List String)
  | [] => .ok acc
  | aff :: rest =>
      if aff.hasMember "Affiliation" then
        match aff.getItem "Affiliation" with
        | .ok (.str s) => entriesAffLoop (insertAff acc s) rest
        | .ok _ => .error .typeError
        | .error e => .error e
      else entriesAffLoop acc rest

/-- The outer author loop of `_extract_affiliations`.  Its `except KeyError`
belongs to the surrounding try, but inside the loop the only dict indexing is
guarded by the membership test, so no KeyError can arise here and errors
simply propagate. -/
def authorsAffLoop (acc : List String) : List PValue → Except PyErr (List String)
  | [] => .ok acc
  | author :: rest =>
      match author.getDefault "AffiliationInfo" (.list []) with
      | .error e => .error e
      | .ok ai =>
          match entriesAffLoop acc ai.iterate with
          | .ok acc2 => authorsAffLoop acc2 rest
          | .error e => .error e

/-- `_extract_affiliations`: the deduplicated affiliation strings across every
`AffiliationInfo` entry of every author; a missing `AuthorList` (KeyError) is
caught and yields the empty list. -/
def extract_affiliations (article : PValue) : Except PyErr (List String) :=
  match article.getItem "AuthorList" with
  | .ok al => authorsAffLoop [] al.iterate
  | .error .keyError => .ok []
  | .error e => .error e

/-- The entry loop of `_extract_corresponding_email`: for each entry,
`affiliation = aff.get("Affiliation", "")`, then the pre-filter
`"email" in affiliation.lower() or "@" in affiliation` (evaluating `.lower()`
raises AttributeError on a non-string), then `re.search`; the first regex
match is returned, and a text passing the pre-filter but failing the pattern
just moves the scan on. -/
def entriesEmailLoop : List PValue → Except PyErr (Option String)
  | [] => .ok none
  | aff :: rest =>
      match aff.getDefault "Affiliation" (.str "") with
      | .error e => .error e
      | .ok (.str s) =>
          if containsSub (lowerStr s).data "email".data || containsSub s.data "@".data then
            match emailSearch s with
            | some m => .ok (some m)
            | none => entriesEmailLoop rest
          else entriesEmailLoop rest
      | .ok _ => .error .attributeError

/-- The author loop of `_extract_corresponding_email`: authors whose
membership test `"AffiliationInfo" in author` succeeds have their entries
scanned; the first match anywhere is returned.  As in `extract_affiliations`,
the only dict indexing under the surrounding `except KeyError` is guarded by
the membership test, so errors simply propagate. -/
def authorsEmailLoop : List PValue → Except PyErr (Option String)
  | [] => .ok none
  | author :: rest =>
      if author.hasMember "AffiliationInfo" then
        match author.getItem "AffiliationInfo" with
        | .error e => .error e
        | .ok ai =>
            match entriesEmailLoop ai.iterate with
            | .ok (some m) => .ok (some m)
            | .ok none => authorsEmailLoop rest
            | .error e => .error e
      else authorsEmailLoop rest

/-- `_extract_corresponding_email`: scan authors in order, each author's
affiliation entries in order; a missing `AuthorList` (KeyError) is caught and
yields `none`, as does a scan with no regex match anywhere. -/
def extract_corresponding_email (article : PValue) : Except PyErr (Option String) :=
  match article.getItem "AuthorList" with
  | .ok al => authorsEmailLoop al.iterate
  | .error .keyError => .ok none
  | .error e => .error e

/-! ### api.py : `PubMedAPI.__init__`, the rate limiter, and the paper pipeline -/

/-- The fetcher state set up by `__init__`: the contact email, the minimum
inter-request interval `1 / requests_per_second`, and the last-request
timestamp (initially `0.0`).  Time is modelled by rationals. -/
structure PubMedAPI where
  email : String
  min_request_interval : ℚ
  last_request_time : ℚ

/-- Python `a or b` on an optional string `a` (`None` and `""` are falsy). -/
def pyOrStr (a b : Option String) : Option String :=
  match a with
  | some s => if s.isEmpty then b else some s
  | none => b

/-- `PubMedAPI.__init__`: `self.email = email or os.environ.get("NCBI_EMAIL")`,
raising ValueError (the spec's ConfigurationError) when the result is falsy;
otherwise the state with `min_request_interval = 1.0 / requests_per_second`
and `last_request_time = 0.0`. -/
def PubMedAPI.init (email envNCBIEmail : Option String)
    (requests_per_second : ℚ) : Except PyErr PubMedAPI :=
  match pyOrStr email envNCBIEmail with
  | some s =>
      if s.isEmpty then .error .valueError
      else .ok ⟨s, 1 / requests_per_second, 0⟩
  | none => .error .valueError

/-- The sleep requested by `_wait_for_rate_limit` when entered at
`current_time`: `min_request_interval - time_since_last_request` if that gap
is still short, else no sleep. -/
def sleepDuration (api : PubMedAPI) (current_time : ℚ) : ℚ :=
  let time_since_last_request := current_time - api.last_request_time
  if time_since_last_request < api.min_request_interval then
    api.min_request_interval - time_since_last_request
  else 0

/-- A trace of calls through `_wait_for_rate_limit` on one instance: each call
is a pair of its entry time `t` (the first `time.time()`) and its recorded
start timestamp `w` (the second `time.time()`, taken immediately after the
wait and stored in `last_request_time` just before the request is issued).
Sleeping suspends for at least the requested duration and the clock is
monotone, so `t + sleepDuration ≤ w`. -/
def validTrace (api : PubMedAPI) : List (ℚ × ℚ) → Prop
  | [] => True
  | (t, w) :: rest =>
      t + sleepDuration api t ≤ w ∧
      validTrace { api with last_request_time := w } rest

/-- One retained paper of `fetch_and_filter_papers`: the `paper_data` dict. -/
structure PaperData where
  pmid : PValue
  title : PValue
  publication_date : PValue
  authors : List AuthorData
  affiliations : List String
  corresponding_email : Option String

/-- Build `paper_data` for one fetched record, in the evaluation order of the
dict literal in `fetch_and_filter_papers` (any exception propagates — this
part of the loop has no try). -/
def buildPaper (paper : PValue) : Except PyErr PaperData :=
  match paper.getItem "MedlineCitation" with
  | .error e => .error e
  | .ok citation =>
      match citation.getItem "Article" with
      | .error e => .error e
      | .ok article =>
          match citation.getItem "PMID" with
          | .error e => .error e
          | .ok pmid =>
              match article.getItem "ArticleTitle" with
              | .error e => .error e
              | .ok title =>
                  match extract_publication_date article with
                  | .error e => .error e
                  | .ok pd =>
                      match extract_authors article with
                      | .error e => .error e
                      | .ok au =>
                          match extract_affiliations article with
                          | .error e => .error e
                          | .ok affs =>
                              match extract_corresponding_email article with
                              | .error e => .error e
                              | .ok em => .ok ⟨pmid, title, pd, au, affs, em⟩

/-- `company_count` of one record: how many of its record-level affiliations
`is_company_affiliated` classifies as a company. -/
def company_count (d : PaperData) : Nat :=
  (d.affiliations.filter is_company_affiliated).length

/-- The filtering loop of `fetch_and_filter_papers` over the fetched batch:
build each record's `paper_data` in order and append it to the output exactly
when `company_count ≥ min_companies`. -/
def processPapers (min_companies : Nat) : List PValue → Except PyErr (List PaperData)
  | [] => .ok []
  | p :: rest =>
      match buildPaper p with
      | .error e => .error e
      | .ok d =>
          match processPapers min_companies rest with
          | .error e => .error e
          | .ok out =>
              .ok (if min_companies ≤ company_count d then d :: out else out)

/-- Building every record of the batch without filtering (the batch view used
to state C10). -/
def buildAll : List PValue → Except PyErr (List PaperData)
  | [] => .ok []
  | p :: rest =>
      match buildPaper p with
      | .error e => .error e
      | .ok d =>
          match buildAll rest with
          | .error e => .error e
          | .ok ds => .ok (d :: ds)

/-! ### Spec-side views and well-formedness of the author-list shape -/

/-- The contact argument / environment value is a non-empty string. -/
def truthyOpt : Option String → Bool
  | some s => !s.isEmpty
  | none => false

/-- A well-shaped `AffiliationInfo` entry: a dict whose `Affiliation` field,
when present, is a string. -/
def wfEntry : PValue → Bool
  | .dict fs =>
      match fs.lookup "Affiliation" with
      | some (.str _) => true
      | none => true
      | some _ => false
  | _ => false

/-- A well-shaped author: a dict whose `AffiliationInfo` field, when present,
is a list of well-shaped entries. -/
def wfAuthor : PValue → Bool
  | .dict fs =>
      match fs.lookup "AffiliationInfo" with
      | some (.list es) => es.all wfEntry
      | none => true
      | some _ => false
  | _ => false

/-- A well-shaped article for the author-scanning extractors: a dict whose
`AuthorList` field, when present, is a list of well-shaped authors. -/
def wfArticleAuthors : PValue → Bool
  | .dict fs =>
      match fs.lookup "AuthorList" with
      | some (.list as) => as.all wfAuthor
      | none => true
      | some _ => false
  | _ => false

/-- Spec view: the affiliation text of one entry (`""` when absent). -/
def entryText : PValue → String
  | .dict fs =>
      match fs.lookup "Affiliation" with
      | some (.str s) => s
      | _ => ""
  | _ => ""

/-- Spec view: one author's affiliation texts, in order of the entries. -/
def authorTexts : PValue → List String
  | .dict fs =>
      match fs.lookup "AffiliationInfo" with
      | some (.list es) => es.map entryText
      | _ => []
  | _ => []

/-- Spec view: every affiliation text of the article, authors in order,
each author's entries in order. -/
def articleAffTexts : PValue → List String
  | .dict fs =>
      match fs.lookup "AuthorList" with
      | some (.list as) => (as.map authorTexts).flatten
      | _ => []
  | _ => []

/-- Modelled from the spec's email rule: a text is considered only when it
contains an `@` sign or the case-insensitive substring `email`, and then the
conservative pattern is applied to it. -/
def emailFromText (s : String) : Option String :=
  if containsSub (lowerStr s).data "email".data || containsSub s.data "@".data then
    emailSearch s
  else none

/-- Spec view: the affiliation strings one entry contributes to the
record-level set (nothing when the `Affiliation` key is absent). -/
def entryAffList : PValue → List String
  | .dict fs =>
      match fs.lookup "Affiliation" with
      | some (.str s) => [s]
      | _ => []
  | _ => []

/-- Spec view: all affiliation strings across one author's entries. -/
def authorAffList : PValue → List String
  | .dict fs =>
      match fs.lookup "AffiliationInfo" with
      | some (.list es) => (es.map entryAffList).flatten
      | _ => []
  | _ => []

/-- Spec view: every affiliation string across all entries of all authors,
with duplicates and in document order. -/
def specAffStrings : PValue → List String
  | .dict fs =>
      match fs.lookup "AuthorList" with
      | some (.list as) => (as.map authorAffList).flatten
      | _ => []
  | _ => []

/-- Folding `set.add` over a list of strings: deduplicate `xs` into `acc`,
keeping first occurrences. -/
def dedupInto (acc : List String) (xs : List String) : List String :=
  xs.foldl insertAff acc

/-- The mock fetched record of `tests/test_api.py`: PMID `12345`, title
`Test Paper 1`, one author Smith, John with affiliation `Pfizer Inc.`, and a
journal-issue year `2023`.  Used as a concrete input by several witnesses. -/
def testPaperV : PValue :=
  .dict [("MedlineCitation", .dict [
    ("PMID", .str "12345"),
    ("Article", .dict [
      ("ArticleTitle", .str "Test Paper 1"),
      ("AuthorList", .list [
        .dict [("LastName", .str "Smith"), ("ForeName", .str "John"),
               ("AffiliationInfo", .list [.dict [("Affiliation", .str "Pfizer Inc.")]])]]),
      ("Journal", .dict [("JournalIssue", .dict
        [("PubDate", .dict [("Year", .str "2023")])])])])])]

/-- The `paper_data` that `fetch_and_filter_papers` builds from `testPaperV`. -/
def testPaperData : PaperData :=
  ⟨.str "12345", .str "Test Paper 1", .str "2023",
   [⟨.str "Smith", .str "John", .str "Pfizer Inc."⟩], ["Pfizer Inc."], none⟩

/-- A two-author article where both authors list `Pfizer Inc.` (so the
record-level set must deduplicate it) and the first author also lists a
second entry. -/
def twoAuthorArticle : PValue :=
  .dict [("AuthorList", .list
    [.dict [("AffiliationInfo", .list
        [.dict [("Affiliation", .str "Pfizer Inc.")],
         .dict [("Affiliation", .str "MIT")]])],
     .dict [("AffiliationInfo", .list
        [.dict [("Affiliation", .str "Pfizer Inc.")]])]])]

/-- An article whose first author's affiliation text mentions `email` with no
address (the scan must move on) and whose second author's text carries a real
address. -/
def emailScanArticle : PValue :=
  .dict [("AuthorList", .list
    [.dict [("AffiliationInfo", .list
        [.dict [("Affiliation", .str "Email on request")]])],
     .dict [("AffiliationInfo", .list
        [.dict [("Affiliation", .str "Dept, contact: jane.doe@biotech.com")]])]])]

end PubMedAF

namespace PubMedAF

/-- C1: any affiliation containing a non-company keyword (case-insensitively)
is classified non-company, regardless of any company keywords also present. -/
theorem non_company_precedence (s : String)
    (h : hasNonCompanyKeyword s = true) : is_company_affiliated s = false := by
  simp [is_company_affiliated, h]

/-- Witness for C1 at `"University Hospital Pharma Partnership"`, which
contains both an academic keyword and a company keyword. -/
theorem non_company_precedence_witness :
    hasNonCompanyKeyword "University Hospital Pharma Partnership" = true ∧
    hasCompanyKeyword "University Hospital Pharma Partnership" = true ∧
    is_company_affiliated "University Hospital Pharma Partnership" = false :=
  ⟨by decide, by decide,
   non_company_precedence "University Hospital Pharma Partnership" (by decide)⟩

/-- C2: `is_company_affiliated` returns `true` iff the string contains some
company keyword and no non-company keyword; with neither, it returns `false`. -/
theorem is_company_affiliated_iff (s : String) :
    is_company_affiliated s = (hasCompanyKeyword s && !hasNonCompanyKeyword s) := by
  unfold is_company_affiliated
  cases h : hasNonCompanyKeyword s <;> simp [h]

/-- C9: classification is case-insensitive — two strings with the same
uppercased character sequence classify identically; in particular
`"pfizer inc."` and `"PFIZER INC."` both classify as a company. -/
theorem classify_case_insensitive :
    (∀ s t : String, upperData s = upperData t →
      is_company_affiliated s = is_company_affiliated t) ∧
    is_company_affiliated "pfizer inc." = true ∧
    is_company_affiliated "PFIZER INC." = true := by
  refine ⟨fun s t h => ?_, by decide, by decide⟩
  unfold is_company_affiliated hasNonCompanyKeyword hasCompanyKeyword
  rw [h]

/-- Witness for C9: the case-invariance applied at the two concrete spellings. -/
theorem classify_case_insensitive_witness :
    is_company_affiliated "pfizer inc." = is_company_affiliated "PFIZER INC." :=
  classify_case_insensitive.1 "pfizer inc." "PFIZER INC." (by decide)

/-- C3: on one fetcher instance, along any valid trace of calls through
`_wait_for_rate_limit` (each call entering at some time, sleeping the computed
duration, and recording its start timestamp immediately after the wait), the
recorded start of call `i+1` is at least `min_request_interval` after the
recorded start of call `i`, for every `i`. -/
theorem rate_limit_call_spacing (api : PubMedAPI) (calls : List (ℚ × ℚ))
    (hv : validTrace api calls) (i : ℕ) (h : i + 1 < calls.length) :
    (calls.get ⟨i, Nat.lt_of_succ_lt h⟩).2 + api.min_request_interval ≤
      (calls.get ⟨i + 1, h⟩).2 := by
  induction calls generalizing api i with
  | nil => simp at h
  | cons c rest ih =>
    obtain ⟨t, w⟩ := c
    obtain ⟨h1, hrest⟩ := hv
    cases i with
    | zero =>
      cases rest with
      | nil => simp at h
      | cons c2 rest2 =>
        obtain ⟨t2, w2⟩ := c2
        obtain ⟨h2, _⟩ := hrest
        simp only [List.get]
        simp only [sleepDuration] at h2
        split_ifs at h2 with hc
        · simp only at hc ⊢
          linarith
        · simp only at hc ⊢
          rw [not_lt] at hc
          linarith
    | succ j =>
      have step := ih { api with last_request_time := w } hrest j
        (Nat.lt_of_succ_lt_succ h)
      simpa using step

/-- Witness for C3: a concrete two-call trace at rate 1 (interval 1): enter at
0, wake and record at 1; enter again at 1, sleep 1, record at 2. -/
theorem rate_limit_call_spacing_witness :
    (([((0:ℚ), (1:ℚ)), (1, 2)].get ⟨0, by norm_num⟩).2
        + (PubMedAPI.mk "user" 1 0).min_request_interval ≤
      ([((0:ℚ), (1:ℚ)), (1, 2)].get ⟨1, by norm_num⟩).2) :=
  rate_limit_call_spacing (PubMedAPI.mk "user" 1 0) [(0, 1), (1, 2)]
    (by refine ⟨?_, ?_, trivial⟩ <;> norm_num [sleepDuration]) 0 (by norm_num)

/-- C8: construction fails with the configuration error (the code's
`ValueError`, the spec's `ConfigurationError`) exactly when neither the
`email` argument nor the `NCBI_EMAIL` environment value is a non-empty
string, and succeeds exactly when either source provides a non-empty one. -/
theorem init_requires_contact (e v : Option String) (r : ℚ) :
    (PubMedAPI.init e v r = .error .valueError ↔
      truthyOpt e = false ∧ truthyOpt v = false) ∧
    ((∃ api, PubMedAPI.init e v r = .ok api) ↔ (truthyOpt e || truthyOpt v) = true) := by
  cases e with
  | none =>
    cases v with
    | none => simp [PubMedAPI.init, pyOrStr, truthyOpt]
    | some s =>
      by_cases hs : s.isEmpty <;>
        simp [PubMedAPI.init, pyOrStr, truthyOpt, hs]
  | some s =>
    by_cases hs : s.isEmpty
    · cases v with
      | none => simp [PubMedAPI.init, pyOrStr, truthyOpt, hs]
      | some u =>
        by_cases hu : u.isEmpty <;>
          simp [PubMedAPI.init, pyOrStr, truthyOpt, hs, hu]
    · simp [PubMedAPI.init, pyOrStr, truthyOpt, hs]

/-- C4 (failing input): on the record whose single author has an empty
`AffiliationInfo` list, `_extract_authors` evaluates `[][0]`, an IndexError
that its `except KeyError` does not catch — extraction raises even though the
record merely lacks affiliation entries.  The other three extractors degrade
to defaults on the same record. -/
theorem extract_authors_empty_affiliation_info_raises :
    extract_authors (.dict [("AuthorList",
        .list [.dict [("AffiliationInfo", .list [])]])]) = .error .indexError ∧
    extract_affiliations (.dict [("AuthorList",
        .list [.dict [("AffiliationInfo", .list [])]])]) = .ok [] ∧
    extract_corresponding_email (.dict [("AuthorList",
        .list [.dict [("AffiliationInfo", .list [])]])]) = .ok none ∧
    extract_publication_date (.dict [("AuthorList",
        .list [.dict [("AffiliationInfo", .list [])]])]) = .ok (.str "") :=
  ⟨rfl, rfl, rfl, rfl⟩

/-- C6: publication-date extraction prefers the structured article date —
with a first `ArticleDate` sub-record present (a non-empty dict), it returns
`Year-Month-Day` hyphen-joined, absent components defaulting to blank; with no
`ArticleDate` key it falls back to the journal issue's `PubDate` year; and
with neither `ArticleDate` nor `Journal` present it returns the empty
string. -/
theorem publication_date_preference :
    (∀ (fs ds : List (String × PValue)) (rest : List PValue) (y m d : String),
        fs.lookup "ArticleDate" = some (.list (.dict ds :: rest)) →
        ds ≠ [] →
        (ds.lookup "Year").getD (.str "") = .str y →
        (ds.lookup "Month").getD (.str "") = .str m →
        (ds.lookup "Day").getD (.str "") = .str d →
        extract_publication_date (.dict fs) =
          .ok (.str (y ++ "-" ++ m ++ "-" ++ d))) ∧
    (∀ (fs js is2 ps : List (String × PValue)),
        fs.lookup "ArticleDate" = none →
        fs.lookup "Journal" = some (.dict js) →
        js.lookup "JournalIssue" = some (.dict is2) →
        is2.lookup "PubDate" = some (.dict ps) →
        extract_publication_date (.dict fs) =
          .ok ((ps.lookup "Year").getD (.str ""))) ∧
    (∀ fs : List (String × PValue),
        fs.lookup "ArticleDate" = none →
        fs.lookup "Journal" = none →
        extract_publication_date (.dict fs) = .ok (.str "")) := by
  refine ⟨?_, ?_, ?_⟩
  · intro fs ds rest y m d h1 hne hY hM hD
    cases ds with
    | nil => exact absurd rfl hne
    | cons p ps' =>
      simp [extract_publication_date, PValue.getDefault, PValue.getIndex,
        PValue.truthy, h1, hY, hM, hD, pyStr]
  · intro fs js is2 ps h1 h2 h3 h4
    simp [extract_publication_date, PValue.getDefault, PValue.getIndex,
      PValue.truthy, PValue.getItem, h1, h2, h3, h4]
  · intro fs h1 h2
    simp [extract_publication_date, PValue.getDefault, PValue.getIndex,
      PValue.truthy, PValue.getItem, h1, h2]

/-- Witness for C6: the three clauses applied at concrete records — a full
structured date `2023-06-15`, a year-only journal fallback `2023`, and a
record with neither. -/
theorem publication_date_preference_witness :
    extract_publication_date (.dict [("ArticleDate", .list [.dict
        [("Year", .str "2023"), ("Month", .str "06"), ("Day", .str "15")]])]) =
      .ok (.str "2023-06-15") ∧
    extract_publication_date (.dict [("Journal", .dict [("JournalIssue", .dict
        [("PubDate", .dict [("Year", .str "2023")])])])]) = .ok (.str "2023") ∧
    extract_publication_date (.dict [("ArticleTitle", .str "T")]) = .ok (.str "") :=
  ⟨publication_date_preference.1 _ _ [] "2023" "06" "15" rfl (by simp) rfl rfl rfl,
   publication_date_preference.2.1 _ _ _ [("Year", PValue.str "2023")] rfl rfl rfl rfl,
   publication_date_preference.2.2 _ rfl rfl⟩

/-- `k in d` on a dict is exactly presence of the key. -/
theorem dict_hasMember_eq_isSome (fs : List (String × PValue)) (k : String) :
    (PValue.dict fs).hasMember k = (fs.lookup k).isSome := by
  induction fs with
  | nil => simp [PValue.hasMember]
  | cons p rest ih =>
    obtain ⟨k', v⟩ := p
    simp only [PValue.hasMember, List.any_cons, List.lookup_cons] at *
    cases h : k == k'
    · simpa [h] using ih
    · simp [h]

/-- Membership after a `set.add`. -/
theorem mem_insertAff (l : List String) (s x : String) :
    x ∈ insertAff l s ↔ x ∈ l ∨ x = s := by
  by_cases hs : s ∈ l
  · have hc : l.contains s = true := List.elem_iff.mpr hs
    rw [insertAff, if_pos hc]
    constructor
    · exact Or.inl
    · rintro (hx | rfl)
      · exact hx
      · exact hs
  · have hc : ¬l.contains s = true := fun hb => hs (List.elem_iff.mp hb)
    rw [insertAff, if_neg hc]
    simp

/-- `set.add` keeps the list duplicate-free. -/
theorem nodup_insertAff (l : List String) (s : String) (h : l.Nodup) :
    (insertAff l s).Nodup := by
  by_cases hs : s ∈ l
  · have hc : l.contains s = true := List.elem_iff.mpr hs
    rw [insertAff, if_pos hc]
    exact h
  · have hc : ¬l.contains s = true := fun hb => hs (List.elem_iff.mp hb)
    rw [insertAff, if_neg hc]
    simp [List.nodup_append, h, hs]

/-- A dedup fold over an append is two dedup folds in sequence. -/
theorem dedupInto_append (acc A B : List String) :
    dedupInto acc (A ++ B) = dedupInto (dedupInto acc A) B :=
  List.foldl_append insertAff acc A B

/-- Membership in a dedup fold. -/
theorem mem_dedupInto (xs : List String) :
    ∀ (acc : List String) (x : String),
      x ∈ dedupInto acc xs ↔ x ∈ acc ∨ x ∈ xs := by
  induction xs with
  | nil => simp [dedupInto]
  | cons a rest ih =>
    intro acc x
    have : dedupInto acc (a :: rest) = dedupInto (insertAff acc a) rest := rfl
    rw [this, ih, mem_insertAff]
    simp [List.mem_cons]
    tauto

/-- A dedup fold from a duplicate-free accumulator is duplicate-free. -/
theorem nodup_dedupInto (xs : List String) :
    ∀ acc : List String, acc.Nodup → (dedupInto acc xs).Nodup := by
  induction xs with
  | nil => intro acc h; simpa [dedupInto] using h
  | cons a rest ih =>
    intro acc h
    exact ih (insertAff acc a) (nodup_insertAff acc a h)

/-- The entry loop of `_extract_affiliations` adds exactly the spec-view
affiliation strings of the entries, in order, into the set. -/
theorem entriesAffLoop_ok (es : List PValue) :
    ∀ acc : List String, es.all wfEntry = true →
      entriesAffLoop acc es = .ok (dedupInto acc (es.map entryAffList).flatten) := by
  induction es with
  | nil => intro acc _; simp [entriesAffLoop, dedupInto]
  | cons e rest ih =>
    intro acc hall
    simp only [List.all_cons, Bool.and_eq_true] at hall
    obtain ⟨he, hrest⟩ := hall
    cases e with
    | str s => simp [wfEntry] at he
    | list l => simp [wfEntry] at he
    | dict gs =>
      cases hl : gs.lookup "Affiliation" with
      | none =>
        simp only [entriesAffLoop, dict_hasMember_eq_isSome, hl, Option.isSome_none,
          Bool.false_eq_true, if_false, ih _ hrest, entryAffList, List.map_cons,
          List.flatten_cons, List.nil_append]
      | some v =>
        cases v with
        | str s =>
          simp only [entriesAffLoop, dict_hasMember_eq_isSome, hl, Option.isSome_some,
            if_true, PValue.getItem, ih _ hrest, entryAffList, List.map_cons,
            List.flatten_cons]
          rfl
        | list l => simp [wfEntry, hl] at he
        | dict gs2 => simp [wfEntry, hl] at he

/-- The author loop of `_extract_affiliations` adds exactly the spec-view
affiliation strings of all entries of all authors. -/
theorem authorsAffLoop_ok (as : List PValue) :
    ∀ acc : List String, as.all wfAuthor = true →
      authorsAffLoop acc as = .ok (dedupInto acc (as.map authorAffList).flatten) := by
  induction as with
  | nil => intro acc _; simp [authorsAffLoop, dedupInto]
  | cons a rest ih =>
    intro acc hall
    simp only [List.all_cons, Bool.and_eq_true] at hall
    obtain ⟨ha, hrest⟩ := hall
    cases a with
    | str s => simp [wfAuthor] at ha
    | list l => simp [wfAuthor] at ha
    | dict gs =>
      cases hl : gs.lookup "AffiliationInfo" with
      | none =>
        simp only [authorsAffLoop, PValue.getDefault, hl, Option.getD_none,
          PValue.iterate, entriesAffLoop, ih _ hrest, authorAffList, List.map_cons,
          List.flatten_cons, List.nil_append]
      | some v =>
        cases v with
        | str s => simp [wfAuthor, hl] at ha
        | dict gs2 => simp [wfAuthor, hl] at ha
        | list es =>
          have hes : es.all wfEntry = true := by simpa [wfAuthor, hl] using ha
          simp only [authorsAffLoop, PValue.getDefault, hl, Option.getD_some,
            PValue.iterate, entriesAffLoop_ok es acc hes, ih _ hrest,
            authorAffList, List.map_cons, List.flatten_cons, dedupInto_append]

/-- C5: (i) on a well-shaped record, the record-level affiliations returned by
`_extract_affiliations` are exactly the deduplicated set of every affiliation
string across **all** affiliation entries of **all** authors (order not
significant); (ii) the filtering loop of `fetch_and_filter_papers` keeps a
fetched record in the output iff the number of its record-level affiliations
classified `true` by `is_company_affiliated` is at least `min_companies`. -/
theorem record_affiliations_and_threshold :
    (∀ article : PValue, wfArticleAuthors article = true →
        ∃ l, extract_affiliations article = .ok l ∧ l.Nodup ∧
          ∀ s, s ∈ l ↔ s ∈ specAffStrings article) ∧
    (∀ (min_companies : ℕ) (p : PValue) (rest : List PValue) (d : PaperData),
        buildPaper p = .ok d →
        processPapers min_companies (p :: rest) =
          (processPapers min_companies rest).map
            (fun out => if min_companies ≤ company_count d then d :: out else out)) := by
  constructor
  · intro article hwf
    cases article with
    | str s => simp [wfArticleAuthors] at hwf
    | list l => simp [wfArticleAuthors] at hwf
    | dict fs =>
      cases hl : fs.lookup "AuthorList" with
      | none =>
        refine ⟨[], ?_, List.nodup_nil, ?_⟩
        · simp [extract_affiliations, PValue.getItem, hl]
        · simp [specAffStrings, hl]
      | some v =>
        cases v with
        | str s => simp [wfArticleAuthors, hl] at hwf
        | dict gs => simp [wfArticleAuthors, hl] at hwf
        | list as =>
          have has : as.all wfAuthor = true := by
            simpa [wfArticleAuthors, hl] using hwf
          refine ⟨dedupInto [] (as.map authorAffList).flatten, ?_, ?_, ?_⟩
          · simp [extract_affiliations, PValue.getItem, hl, PValue.iterate,
              authorsAffLoop_ok as [] has]
          · exact nodup_dedupInto _ [] List.nodup_nil
          · intro s
            rw [mem_dedupInto]
            simp [specAffStrings, hl]
  · intro mc p rest d hb
    cases hr : processPapers mc rest with
    | error e => simp [processPapers, hb, hr, Except.map]
    | ok out => simp [processPapers, hb, hr, Except.map]

/-- Witness for C5: part (i) at a record whose two authors share the string
`Pfizer Inc.`, part (ii) at the mock test record at threshold 1. -/
theorem record_affiliations_and_threshold_witness :
    (∃ l, extract_affiliations twoAuthorArticle = .ok l ∧ l.Nodup ∧
        ∀ s, s ∈ l ↔ s ∈ specAffStrings twoAuthorArticle) ∧
    processPapers 1 [testPaperV] =
      (processPapers 1 []).map
        (fun out => if 1 ≤ company_count testPaperData then testPaperData :: out
                    else out) :=
  ⟨record_affiliations_and_threshold.1 twoAuthorArticle rfl,
   record_affiliations_and_threshold.2 1 testPaperV [] testPaperData rfl⟩

/-- The entry loop of `_extract_corresponding_email` on well-shaped entries
returns the first pre-filtered regex match among the entry texts, in order. -/
theorem entriesEmailLoop_ok (es : List PValue) (h : es.all wfEntry = true) :
    entriesEmailLoop es = .ok ((es.map entryText).findSome? emailFromText) := by
  induction es with
  | nil => simp [entriesEmailLoop]
  | cons e rest ih =>
    simp only [List.all_cons, Bool.and_eq_true] at h
    obtain ⟨he, hrest⟩ := h
    cases e with
    | str s => simp [wfEntry] at he
    | list l => simp [wfEntry] at he
    | dict gs =>
      cases hl : gs.lookup "Affiliation" with
      | none =>
        have hcond : (containsSub (lowerStr "").data "email".data
            || containsSub "".data "@".data) = false := by decide
        have hnone : emailFromText "" = none := by decide
        simp only [entriesEmailLoop, PValue.getDefault, hl, Option.getD_none,
          hcond, Bool.false_eq_true, if_false, ih hrest, List.map_cons,
          List.findSome?_cons, entryText, hnone]
      | some v =>
        cases v with
        | list l => simp [wfEntry, hl] at he
        | dict gs2 => simp [wfEntry, hl] at he
        | str s =>
          by_cases hc : (containsSub (lowerStr s).data "email".data
              || containsSub s.data "@".data) = true
          · have hft : emailFromText s = emailSearch s := by
              simp [emailFromText, hc]
            cases hm : emailSearch s with
            | some m =>
              simp only [entriesEmailLoop, PValue.getDefault, hl, Option.getD_some,
                hc, if_true, hm, List.map_cons, List.findSome?_cons, entryText, hft]
            | none =>
              simp only [entriesEmailLoop, PValue.getDefault, hl, Option.getD_some,
                hc, if_true, hm, ih hrest, List.map_cons, List.findSome?_cons,
                entryText, hft]
          · have hcf : (containsSub (lowerStr s).data "email".data
                || containsSub s.data "@".data) = false := by
              simpa using hc
            have hft : emailFromText s = none := by
              simp [emailFromText, hcf]
            simp only [entriesEmailLoop, PValue.getDefault, hl, Option.getD_some,
              hcf, Bool.false_eq_true, if_false, ih hrest, List.map_cons,
              List.findSome?_cons, entryText, hft]

/-- The author loop of `_extract_corresponding_email` on well-shaped authors
returns the first pre-filtered regex match across all texts, authors in
order, entries in order. -/
theorem authorsEmailLoop_ok (as : List PValue) (h : as.all wfAuthor = true) :
    authorsEmailLoop as =
      .ok (((as.map authorTexts).flatten).findSome? emailFromText) := by
  induction as with
  | nil => simp [authorsEmailLoop]
  | cons a rest ih =>
    simp only [List.all_cons, Bool.and_eq_true] at h
    obtain ⟨ha, hrest⟩ := h
    cases a with
    | str s => simp [wfAuthor] at ha
    | list l => simp [wfAuthor] at ha
    | dict gs =>
      cases hl : gs.lookup "AffiliationInfo" with
      | none =>
        simp only [authorsEmailLoop, dict_hasMember_eq_isSome, hl, Option.isSome_none,
          Bool.false_eq_true, if_false, ih hrest, authorTexts, List.map_cons,
          List.flatten_cons, List.nil_append]
      | some v =>
        cases v with
        | str s => simp [wfAuthor, hl] at ha
        | dict gs2 => simp [wfAuthor, hl] at ha
        | list es =>
          have hes : es.all wfEntry = true := by
            simpa [wfAuthor, hl] using ha
          cases hm : (es.map entryText).findSome? emailFromText with
          | some m =>
            simp only [authorsEmailLoop, dict_hasMember_eq_isSome, hl,
              Option.isSome_some, if_true, PValue.getItem, PValue.iterate,
              entriesEmailLoop_ok es hes, hm, authorTexts, List.map_cons,
              List.flatten_cons, List.findSome?_append, Option.or]
          | none =>
            simp only [authorsEmailLoop, dict_hasMember_eq_isSome, hl,
              Option.isSome_some, if_true, PValue.getItem, PValue.iterate,
              entriesEmailLoop_ok es hes, hm, ih hrest, authorTexts, List.map_cons,
              List.flatten_cons, List.findSome?_append, Option.or]

/-- C7: on a well-shaped record, corresponding-email extraction scans authors
in order and each author's affiliation entries in order, applies the pattern
only to texts passing the `@`/`email` pre-filter, and returns the first regex
match; texts passing the pre-filter but failing the pattern are skipped, and
with no match anywhere the result is nothing. -/
theorem corresponding_email_scan (article : PValue)
    (h : wfArticleAuthors article = true) :
    extract_corresponding_email article =
      .ok ((articleAffTexts article).findSome? emailFromText) := by
  cases article with
  | str s => simp [wfArticleAuthors] at h
  | list l => simp [wfArticleAuthors] at h
  | dict fs =>
    cases hl : fs.lookup "AuthorList" with
    | none =>
      simp [extract_corresponding_email, PValue.getItem, hl, articleAffTexts]
    | some v =>
      cases v with
      | str s => simp [wfArticleAuthors, hl] at h
      | dict gs => simp [wfArticleAuthors, hl] at h
      | list as =>
        have has : as.all wfAuthor = true := by
          simpa [wfArticleAuthors, hl] using h
        simp [extract_corresponding_email, PValue.getItem, hl, PValue.iterate,
          authorsEmailLoop_ok as has, articleAffTexts]

/-- Witness for C7: the scan applied at a record whose first text says
`Email on request` (pre-filter passes, pattern fails, scan continues) and
whose second text holds `jane.doe@biotech.com`. -/
theorem corresponding_email_scan_witness :
    extract_corresponding_email emailScanArticle =
      .ok (some "jane.doe@biotech.com") :=
  (corresponding_email_scan emailScanArticle rfl).trans (by rfl)

/-- C10: whenever the filtering loop of `fetch_and_filter_papers` succeeds,
its output is exactly the filter of the extracted record batch — the records
meeting the `min_companies` threshold, in fetched order, each exactly once. -/
theorem fetch_filter_subsequence (mc : ℕ) (papers : List PValue)
    (out : List PaperData) (h : processPapers mc papers = .ok out) :
    ∃ ds, buildAll papers = .ok ds ∧
      out = ds.filter (fun d => decide (mc ≤ company_count d)) := by
  induction papers generalizing out with
  | nil =>
    refine ⟨[], rfl, ?_⟩
    have h' : Except.ok ([] : List PaperData) = Except.ok out := h
    injection h' with h''
    simp [← h'']
  | cons p rest ih =>
    simp only [processPapers] at h
    cases hb : buildPaper p with
    | error e => rw [hb] at h; simp at h
    | ok d =>
      rw [hb] at h
      cases hr : processPapers mc rest with
      | error e => rw [hr] at h; simp at h
      | ok out' =>
        rw [hr] at h
        injection h with h'
        obtain ⟨ds, hds, hout⟩ := ih out' hr
        refine ⟨d :: ds, ?_, ?_⟩
        · simp [buildAll, hb, hds]
        · rw [← h']
          by_cases hcc : mc ≤ company_count d <;>
            simp [List.filter_cons, hcc, hout]

/-- Witness for C10: the mock batch at threshold 1 (the record is retained)
— the output equals the filtered built batch. -/
theorem fetch_filter_subsequence_witness :
    ∃ ds, buildAll [testPaperV] = .ok ds ∧
      [testPaperData] = ds.filter (fun d => decide (1 ≤ company_count d)) :=
  fetch_filter_subsequence 1 [testPaperV] [testPaperData] rfl

end PubMedAF
